import Mathlib

set_option maxHeartbeats 1000000

/-!
Shallow embedding of the tic-tac-toe board engine (src/main.rs).

The Rust type `GameBoard<const LEN: usize, const COLS: usize>` is modelled as
a structure holding the spot list and the current player; the const generic
`COLS` becomes an explicit parameter of every operation, and `LEN` is the
length of the spot list.  `usize` arithmetic is modelled with `Nat` (no value
in the program approaches overflow).  Rust panic points (`expect` on
`get_mut`, slice indexing out of range, division or remainder by zero) are
modelled by returning `none`, so a function returning `some r` models a
non-panicking execution returning `r`.
-/

namespace TicTacToe

abbrev Pos := Nat × Nat

inductive Piece where
  | X
  | O
deriving DecidableEq

inductive Player where
  | X
  | O
deriving DecidableEq

/-- `impl From<Player> for Piece` in the source. -/
def Player.toPiece : Player → Piece
  | .X => .X
  | .O => .O

inductive Spot where
  | Empty
  | Occupied (piece : Piece)
deriving DecidableEq

inductive Turn where
  | Win (p : Player)
  | Draw
  | Next
deriving DecidableEq

inductive Bound where
  | Row
  | Col
  | Both
deriving DecidableEq

inductive Diagonal where
  | Primary
  | Secondary
  | Both
deriving DecidableEq

inductive BoardError where
  | OutOfBounds (b : Bound)
  | Occupied
deriving DecidableEq

inductive MalformedError where
  | LenZero
  | ColsZero
deriving DecidableEq

structure GameBoard where
  board : List Spot
  player : Player
deriving DecidableEq

/-- `GameBoard::constraints`: rejects `COLS == 0` (first) and `LEN == 0`;
no other condition is checked. -/
def constraints (LEN COLS : Nat) : Except MalformedError Unit :=
  if COLS = 0 then .error .ColsZero
  else if LEN = 0 then .error .LenZero
  else .ok ()

/-- `GameBoard::new`: after `constraints`, the board is `LEN` copies of
`Spot::default()` (that is, `Empty`) and the player is `X`. -/
def GameBoard.new (LEN COLS : Nat) : Except MalformedError GameBoard :=
  match constraints LEN COLS with
  | .error e => .error e
  | .ok _ => .ok ⟨List.replicate LEN Spot.Empty, Player.X⟩

/-- `GameBoard::convert_to_linear`.  `rows` is `LEN / COLS`; in Rust the
division panics when `COLS = 0`, modelled by `none`. -/
def convert_to_linear (COLS : Nat) (board : List Spot) (pos : Pos) :
    Option (Except Bound Nat) :=
  if COLS = 0 then none
  else
    let rows := board.length / COLS
    match decide (pos.1 ≥ rows), decide (pos.2 ≥ COLS) with
    | true, true => some (.error .Both)
    | true, false => some (.error .Row)
    | false, true => some (.error .Col)
    | false, false => some (.ok (pos.2 + COLS * pos.1))

/-- `GameBoard::set_piece`.  The `get_mut(idx).expect(..)` panic is modelled
by `none` when `idx` is out of range of the list. -/
def set_piece (COLS : Nat) (b : GameBoard) (pos : Pos) :
    Option (Except BoardError Nat × GameBoard) :=
  match convert_to_linear COLS b.board pos with
  | none => none
  | some (.error bound) => some (.error (.OutOfBounds bound), b)
  | some (.ok idx) =>
    match b.board.get? idx with
    | none => none
    | some Spot.Empty =>
      some (.ok idx, ⟨b.board.set idx (Spot.Occupied b.player.toPiece), b.player⟩)
    | some (Spot.Occupied _) => some (.error .Occupied, b)

/-- Recursion behind `GameBoard::streak_line`: enumerate the board from
index `n`, keep the spots whose index satisfies `f`, and require each kept
spot to equal `Occupied` by the current player.  A failing (`none`)
membership test models a panic inside the closure `f`. -/
def streak_from (player : Player) (f : Nat → Option Bool) :
    Nat → List Spot → Option Bool
  | _, [] => some true
  | n, spot :: rest =>
    match f n with
    | none => none
    | some b =>
      match streak_from player f (n + 1) rest with
      | none => none
      | some r => some ((!b || decide (Spot.Occupied player.toPiece = spot)) && r)

/-- `GameBoard::streak_line`. -/
def streak_line (board : List Spot) (player : Player) (f : Nat → Option Bool) :
    Option Bool :=
  streak_from player f 0 board

/-- `GameBoard::check_horizontal`: slices `board[start..start+COLS]` where
`start = (idx / COLS) * COLS`; the division (`COLS = 0`) and an
out-of-range slice are Rust panics, modelled by `none`. -/
def check_horizontal (COLS : Nat) (board : List Spot) (player : Player)
    (idx : Nat) : Option Bool :=
  if COLS = 0 then none
  else
    let start := idx / COLS * COLS
    if start + COLS ≤ board.length then
      some (((board.drop start).take COLS).all
        fun spot => decide (Spot.Occupied player.toPiece = spot))
    else none

/-- `GameBoard::check_vertical`: the closure `remainder` computes `n % COLS`,
which panics in Rust when `COLS = 0`. -/
def check_vertical (COLS : Nat) (board : List Spot) (player : Player)
    (idx : Nat) : Option Bool :=
  streak_line board player
    fun n => if COLS = 0 then none else some (decide (n % COLS = idx % COLS))

/-- `GameBoard::is_squared`: `COLS.pow(2) == LEN`. -/
def is_squared (LEN COLS : Nat) : Bool :=
  decide (COLS ^ 2 = LEN)

/-- `GameBoard::in_primary`: `idx % (COLS + 1) == 0` (total: `COLS + 1 ≥ 1`). -/
def in_primary (COLS idx : Nat) : Bool :=
  decide (idx % (COLS + 1) = 0)

/-- `GameBoard::in_secondary`: `idx % (COLS - 1) == 0`.  When `COLS ≤ 1` the
subtraction underflows (`COLS = 0`) or the remainder divides by zero
(`COLS = 1`): both are modelled by `none`. -/
def in_secondary (COLS idx : Nat) : Option Bool :=
  if COLS - 1 = 0 then none else some (decide (idx % (COLS - 1) = 0))

/-- `GameBoard::in_center`: `in_primary(idx) && in_secondary(idx)` with
Rust short-circuit evaluation. -/
def in_center (COLS idx : Nat) : Option Bool :=
  if in_primary COLS idx then in_secondary COLS idx else some false

/-- `GameBoard::check_diagonal`, with `||` short-circuiting in the `Both`
case. -/
def check_diagonal (COLS : Nat) (board : List Spot) (player : Player) :
    Diagonal → Option Bool
  | .Primary => streak_line board player fun n => some (in_primary COLS n)
  | .Secondary => streak_line board player (in_secondary COLS)
  | .Both =>
    match streak_line board player fun n => some (in_primary COLS n) with
    | none => none
    | some true => some true
    | some false => streak_line board player (in_secondary COLS)

/-- `GameBoard::check_diagonals`. -/
def check_diagonals (COLS : Nat) (board : List Spot) (player : Player)
    (idx : Nat) : Option Bool :=
  if !is_squared board.length COLS then some false
  else
    match in_center COLS idx with
    | none => none
    | some true => check_diagonal COLS board player .Both
    | some false =>
      if in_primary COLS idx then check_diagonal COLS board player .Primary
      else
        match in_secondary COLS idx with
        | none => none
        | some true => check_diagonal COLS board player .Secondary
        | some false => some false

/-- `GameBoard::check_win`, with `||` short-circuiting. -/
def check_win (COLS : Nat) (board : List Spot) (player : Player)
    (idx : Nat) : Option Bool :=
  match check_horizontal COLS board player idx with
  | none => none
  | some true => some true
  | some false =>
    match check_vertical COLS board player idx with
    | none => none
    | some true => some true
    | some false => check_diagonals COLS board player idx

/-- `GameBoard::check_draw`: every spot differs from `Empty`. -/
def check_draw (board : List Spot) : Bool :=
  board.all fun spot => decide (¬Spot.Empty = spot)

/-- `GameBoard::toggle_player`. -/
def toggle_player (b : GameBoard) : GameBoard :=
  match b.player with
  | .O => ⟨b.board, .X⟩
  | .X => ⟨b.board, .O⟩

/-- `GameBoard::turn`.  State passing makes the mutation explicit: the
result pairs the Rust return value with the board after the call. -/
def turn (COLS : Nat) (b : GameBoard) (pos : Pos) :
    Option (Except BoardError Turn × GameBoard) :=
  match set_piece COLS b pos with
  | none => none
  | some (.error e, b1) => some (.error e, b1)
  | some (.ok idx, b1) =>
    match check_win COLS b1.board b1.player idx with
    | none => none
    | some true => some (.ok (.Win b1.player), b1)
    | some false =>
      if check_draw b1.board then some (.ok .Draw, b1)
      else some (.ok .Next, toggle_player b1)

/-- Plays a list of positions from a starting board, collecting the result
of each `turn` call and the final board; `none` if some call panics. -/
def playSeq (COLS : Nat) : GameBoard → List Pos →
    Option (List (Except BoardError Turn) × GameBoard)
  | b, [] => some ([], b)
  | b, p :: ps =>
    match turn COLS b p with
    | none => none
    | some (r, b1) =>
      match playSeq COLS b1 ps with
      | none => none
      | some (rs, b2) => some (r :: rs, b2)

/-- The freshly constructed 3x3 board used by `main` (`LEN = 9`, `COLS = 3`). -/
def init9 : GameBoard :=
  ⟨List.replicate 9 Spot.Empty, Player.X⟩

/-- Number of spots occupied by a given piece. -/
def countPiece (p : Piece) (board : List Spot) : Nat :=
  board.countP fun s => decide (s = Spot.Occupied p)

/-- The board after the winning sequence (0,0)X, (1,0)O, (0,1)X, (1,1)O,
(0,2)X on a fresh 3x3 board: top row all X, current player still X. -/
def wonBoard : GameBoard :=
  ⟨[Spot.Occupied Piece.X, Spot.Occupied Piece.X, Spot.Occupied Piece.X,
    Spot.Occupied Piece.O, Spot.Occupied Piece.O, Spot.Empty,
    Spot.Empty, Spot.Empty, Spot.Empty], Player.X⟩

/-- The board obtained from `wonBoard` by the further call `turn (2,0)`. -/
def afterWonBoard : GameBoard :=
  ⟨[Spot.Occupied Piece.X, Spot.Occupied Piece.X, Spot.Occupied Piece.X,
    Spot.Occupied Piece.O, Spot.Occupied Piece.O, Spot.Empty,
    Spot.Occupied Piece.X, Spot.Empty, Spot.Empty], Player.O⟩

/-- Reachability between board states through `turn` calls that succeed with
any `Ok` result (`Next`, `Win`, or `Draw`). -/
inductive ReachableOk (COLS : Nat) : GameBoard → GameBoard → Prop where
  | refl (b : GameBoard) : ReachableOk COLS b b
  | step {b b1 b2 : GameBoard} (pos : Pos) (t : Turn) :
      turn COLS b pos = some (.ok t, b1) → ReachableOk COLS b1 b2 →
      ReachableOk COLS b b2

/-- Reachability between board states through `turn` calls that return
`Ok(Next)` (the game still in progress). -/
inductive ReachableNext (COLS : Nat) : GameBoard → GameBoard → Prop where
  | refl (b : GameBoard) : ReachableNext COLS b b
  | step {b b1 b2 : GameBoard} (pos : Pos) :
      turn COLS b pos = some (.ok .Next, b1) → ReachableNext COLS b1 b2 →
      ReachableNext COLS b b2

end TicTacToe

deriving instance DecidableEq for Except

namespace TicTacToe

/-! ### Helper lemmas -/

theorem convert_eq (COLS : Nat) (board : List Spot) (pos : Pos)
    (hC : COLS ≠ 0) :
    convert_to_linear COLS board pos =
      some (if pos.1 ≥ board.length / COLS then
              if pos.2 ≥ COLS then .error .Both else .error .Row
            else if pos.2 ≥ COLS then .error .Col
            else .ok (pos.2 + COLS * pos.1)) := by
  unfold convert_to_linear
  rw [if_neg hC]
  by_cases h1 : pos.1 ≥ board.length / COLS <;>
    by_cases h2 : pos.2 ≥ COLS <;> simp [h1, h2]

theorem convert_ok_inv (COLS : Nat) (board : List Spot) (pos : Pos) (idx : Nat)
    (h : convert_to_linear COLS board pos = some (.ok idx)) :
    COLS ≠ 0 ∧ idx = pos.2 + COLS * pos.1 ∧
      pos.1 < board.length / COLS ∧ pos.2 < COLS := by
  unfold convert_to_linear at h
  by_cases hC : COLS = 0
  · rw [if_pos hC] at h; exact absurd h (by simp)
  · rw [if_neg hC] at h
    by_cases h1 : pos.1 ≥ board.length / COLS <;>
      by_cases h2 : pos.2 ≥ COLS <;> simp [h1, h2] at h <;>
      exact ⟨hC, h.symm, by omega, by omega⟩

theorem idx_lt_len (COLS len r c : Nat) (hC : COLS ≠ 0)
    (hr : r < len / COLS) (hc : c < COLS) : c + COLS * r < len := by
  have h1 : c + COLS * r < COLS * (r + 1) := by
    rw [Nat.mul_succ]; omega
  have h2 : COLS * (r + 1) ≤ COLS * (len / COLS) :=
    Nat.mul_le_mul_left COLS (by omega)
  have h3 : COLS * (len / COLS) ≤ len := by
    rw [Nat.mul_comm]; exact Nat.div_mul_le_self len COLS
  omega

theorem turn_of_convert_error (COLS : Nat) (b : GameBoard) (pos : Pos)
    (bd : Bound) (h : convert_to_linear COLS b.board pos = some (.error bd)) :
    turn COLS b pos = some (.error (.OutOfBounds bd), b) := by
  unfold turn set_piece
  rw [h]

theorem set_piece_error_inv (COLS : Nat) (b : GameBoard) (pos : Pos)
    (e : BoardError) (b1 : GameBoard)
    (h : set_piece COLS b pos = some (.error e, b1)) : b1 = b := by
  unfold set_piece at h
  split at h
  · exact absurd h (by simp)
  · simp only [Option.some.injEq, Prod.mk.injEq] at h
    exact h.2.symm
  · split at h
    · exact absurd h (by simp)
    · simp at h
    · simp only [Option.some.injEq, Prod.mk.injEq] at h
      exact h.2.symm

theorem set_piece_ok_inv (COLS : Nat) (b : GameBoard) (pos : Pos)
    (idx : Nat) (b1 : GameBoard)
    (h : set_piece COLS b pos = some (.ok idx, b1)) :
    convert_to_linear COLS b.board pos = some (.ok idx) ∧
      b.board.get? idx = some Spot.Empty ∧
      b1 = ⟨b.board.set idx (Spot.Occupied b.player.toPiece), b.player⟩ := by
  unfold set_piece at h
  split at h
  · exact absurd h (by simp)
  · simp at h
  · rename_i j hcv
    split at h
    · exact absurd h (by simp)
    · rename_i hg
      simp only [Option.some.injEq, Prod.mk.injEq, Except.ok.injEq] at h
      obtain ⟨rfl, rfl⟩ := h
      exact ⟨hcv, hg, rfl⟩
    · simp at h

/-! ### Claim theorems -/

/-- Claim C1 (evaluation at the failing input): on a fresh 3x3 board the
sequence (0,2)X, (0,0)O, (1,1)X, (0,1)O, (2,0)X returns Next on every call,
including the last one.  The spec expects Win(X) on the last call (X then
occupies the whole secondary diagonal), but the membership test
`idx % (COLS - 1) == 0` also holds at the corner indices 0 and 8, so
`streak_line` with `in_secondary` also requires those corners to be X and
the secondary-diagonal win is never detected. -/
theorem c1_secondary_diagonal_missed :
    GameBoard.new 9 3 = .ok init9 ∧
    (playSeq 3 init9 [(0, 2), (0, 0), (1, 1), (0, 1), (2, 0)]).map Prod.fst =
      some [.ok .Next, .ok .Next, .ok .Next, .ok .Next, .ok .Next] ∧
    in_secondary 3 0 = some true ∧ in_secondary 3 8 = some true := by
  decide

/-- Claim C2, counterexample: construction with LEN = 7, COLS = 3 succeeds
although the length is not divisible by the column count, contradicting the
claim that `new` then fails with a matching MalformedError variant. -/
theorem c2_counterexample :
    GameBoard.new 7 3 = .ok ⟨List.replicate 7 Spot.Empty, Player.X⟩ ∧
      ¬7 % 3 = 0 := by
  decide

/-- Claim C2, amended: construction succeeds exactly when LEN > 0 and
COLS > 0; COLS = 0 yields ColsZero (checked first), otherwise LEN = 0
yields LenZero.  Divisibility of the length by the column count is not
checked and has no error variant. -/
theorem c2_construction (LEN COLS : Nat) :
    ((∃ b, GameBoard.new LEN COLS = .ok b) ↔ 0 < LEN ∧ 0 < COLS) ∧
    (COLS = 0 → GameBoard.new LEN COLS = .error .ColsZero) ∧
    (COLS ≠ 0 → LEN = 0 → GameBoard.new LEN COLS = .error .LenZero) := by
  unfold GameBoard.new constraints
  by_cases hc : COLS = 0
  · subst hc
    simp
  · by_cases hl : LEN = 0
    · subst hl
      simp [hc]
    · simp [hc, hl, Nat.pos_of_ne_zero]

/-- Witness for `c2_construction` at concrete dimensions. -/
theorem c2_construction_witness :
    GameBoard.new 5 0 = .error .ColsZero ∧
      GameBoard.new 0 3 = .error .LenZero ∧ (0 < 9 ∧ 0 < 3) :=
  ⟨(c2_construction 5 0).2.1 rfl, (c2_construction 0 3).2.2 (by decide) rfl,
   (c2_construction 9 3).1.mp ⟨init9, by decide⟩⟩

/-- Claim C4: whenever `turn` returns an error, the resulting board state
(spots and current player) is exactly the state before the call. -/
theorem c4_error_preserves_state (COLS : Nat) (b : GameBoard) (pos : Pos)
    (e : BoardError) (b1 : GameBoard)
    (h : turn COLS b pos = some (.error e, b1)) : b1 = b := by
  unfold turn at h
  split at h
  · exact absurd h (by simp)
  · rename_i e1 bsp hsp
    simp only [Option.some.injEq, Prod.mk.injEq] at h
    exact h.2 ▸ set_piece_error_inv COLS b pos e1 bsp hsp
  · split at h
    · exact absurd h (by simp)
    · simp at h
    · split at h
      · simp at h
      · simp at h

/-- Witness for `c4_error_preserves_state`: placing on the occupied corner
of `wonBoard` errors and returns the board unchanged. -/
theorem c4_error_preserves_state_witness :
    turn 3 wonBoard (0, 0) = some (.error .Occupied, wonBoard) ∧
      wonBoard = wonBoard :=
  ⟨by decide, c4_error_preserves_state 3 wonBoard (0, 0) .Occupied wonBoard (by decide)⟩

/-- Claim C5: with rows = LEN / COLS, both axes out of range yields
OutOfBounds(Both), exactly one yields the matching single variant (the
board unchanged in each case), and an in-range position is converted to
the linear index col + COLS * row. -/
theorem c5_bounds_reporting (COLS : Nat) (b : GameBoard) (pos : Pos)
    (hC : COLS ≠ 0) :
    (pos.1 ≥ b.board.length / COLS → pos.2 ≥ COLS →
      turn COLS b pos = some (.error (.OutOfBounds .Both), b)) ∧
    (pos.1 ≥ b.board.length / COLS → pos.2 < COLS →
      turn COLS b pos = some (.error (.OutOfBounds .Row), b)) ∧
    (pos.1 < b.board.length / COLS → pos.2 ≥ COLS →
      turn COLS b pos = some (.error (.OutOfBounds .Col), b)) ∧
    (pos.1 < b.board.length / COLS → pos.2 < COLS →
      convert_to_linear COLS b.board pos = some (.ok (pos.2 + COLS * pos.1))) := by
  have hcv := convert_eq COLS b.board pos hC
  refine ⟨fun h1 h2 => ?_, fun h1 h2 => ?_, fun h1 h2 => ?_, fun h1 h2 => ?_⟩
  · exact turn_of_convert_error COLS b pos .Both (by rw [hcv]; simp [h1, h2])
  · exact turn_of_convert_error COLS b pos .Row
      (by rw [hcv]; simp [h1, Nat.not_le.mpr h2])
  · exact turn_of_convert_error COLS b pos .Col
      (by rw [hcv]; simp [Nat.not_le.mpr h1, h2])
  · rw [hcv]
    simp [Nat.not_le.mpr h1, Nat.not_le.mpr h2]

/-- Witness for `c5_bounds_reporting` on the 3x3 board. -/
theorem c5_bounds_reporting_witness :
    turn 3 init9 (5, 5) = some (.error (.OutOfBounds .Both), init9) ∧
    turn 3 init9 (5, 1) = some (.error (.OutOfBounds .Row), init9) ∧
    turn 3 init9 (1, 5) = some (.error (.OutOfBounds .Col), init9) ∧
    convert_to_linear 3 init9.board (1, 2) = some (.ok (2 + 3 * 1)) :=
  ⟨(c5_bounds_reporting 3 init9 (5, 5) (by decide)).1 (by decide) (by decide),
   (c5_bounds_reporting 3 init9 (5, 1) (by decide)).2.1 (by decide) (by decide),
   (c5_bounds_reporting 3 init9 (1, 5) (by decide)).2.2.1 (by decide) (by decide),
   (c5_bounds_reporting 3 init9 (1, 2) (by decide)).2.2.2 (by decide) (by decide)⟩

/-- Claim C7: the sequence (0,0)X, (1,1)O, (0,1)X, (1,0)O on a fresh 3x3
board returns Next four times and the fifth call (0,2) completes the top
row and returns Win(X). -/
theorem c7_top_row_win :
    GameBoard.new 9 3 = .ok init9 ∧
    (playSeq 3 init9 [(0, 0), (1, 1), (0, 1), (1, 0), (0, 2)]).map Prod.fst =
      some [.ok .Next, .ok .Next, .ok .Next, .ok .Next, .ok (.Win .X)] := by
  decide

/-- Claim C8: for every order of the X moves (0,0), (1,1), (2,2) and every
pair of distinct interleaved O moves outside the primary diagonal, the
first four calls return Next and the final X move completes the primary
diagonal and returns Win(X). -/
theorem c8_primary_diagonal_win :
    GameBoard.new 9 3 = .ok init9 ∧
    ∀ x1 ∈ ([(0, 0), (1, 1), (2, 2)] : List Pos),
    ∀ x2 ∈ ([(0, 0), (1, 1), (2, 2)] : List Pos),
    ∀ x3 ∈ ([(0, 0), (1, 1), (2, 2)] : List Pos),
    x1 ≠ x2 → x1 ≠ x3 → x2 ≠ x3 →
    ∀ o1 ∈ ([(0, 1), (0, 2), (1, 0), (1, 2), (2, 0), (2, 1)] : List Pos),
    ∀ o2 ∈ ([(0, 1), (0, 2), (1, 0), (1, 2), (2, 0), (2, 1)] : List Pos),
    o1 ≠ o2 →
    (playSeq 3 init9 [x1, o1, x2, o2, x3]).map Prod.fst =
      some [.ok .Next, .ok .Next, .ok .Next, .ok .Next, .ok (.Win .X)] := by
  decide

/-- Witness for `c8_primary_diagonal_win` at one concrete ordering. -/
theorem c8_primary_diagonal_win_witness :
    (playSeq 3 init9 [(0, 0), (0, 1), (1, 1), (0, 2), (2, 2)]).map Prod.fst =
      some [.ok .Next, .ok .Next, .ok .Next, .ok .Next, .ok (.Win .X)] :=
  c8_primary_diagonal_win.2 (0, 0) (by decide) (1, 1) (by decide) (2, 2)
    (by decide) (by decide) (by decide) (by decide) (0, 1) (by decide)
    (0, 2) (by decide) (by decide)

/-- The board after the eight moves X0, O2, X1, O3, X5, O4, X6, O8 of a
drawn 3x3 game (spot 7 still empty, X to move). -/
def preDrawBoard : GameBoard :=
  ⟨[Spot.Occupied Piece.X, Spot.Occupied Piece.X, Spot.Occupied Piece.O,
    Spot.Occupied Piece.O, Spot.Occupied Piece.O, Spot.Occupied Piece.X,
    Spot.Occupied Piece.X, Spot.Empty, Spot.Occupied Piece.O], Player.X⟩

/-- The full board obtained from `preDrawBoard` by the drawing move (2,1). -/
def drawnBoard : GameBoard :=
  ⟨[Spot.Occupied Piece.X, Spot.Occupied Piece.X, Spot.Occupied Piece.O,
    Spot.Occupied Piece.O, Spot.Occupied Piece.O, Spot.Occupied Piece.X,
    Spot.Occupied Piece.X, Spot.Occupied Piece.X, Spot.Occupied Piece.O],
   Player.X⟩

/-- Claim C6: a turn at an in-bounds empty position first places the current
player piece at the linear index, then reports Win without toggling when the
win check on the updated board succeeds, else Draw without toggling when the
board is full (so a board-filling winning move reports Win, not Draw), else
toggles the player and reports Next. -/
theorem c6_success_flow (COLS : Nat) (b : GameBoard) (pos : Pos)
    (hC : COLS ≠ 0) (hr : pos.1 < b.board.length / COLS) (hc : pos.2 < COLS)
    (hE : b.board.get? (pos.2 + COLS * pos.1) = some Spot.Empty) :
    set_piece COLS b pos =
      some (.ok (pos.2 + COLS * pos.1),
        ⟨b.board.set (pos.2 + COLS * pos.1) (Spot.Occupied b.player.toPiece),
         b.player⟩) ∧
    (check_win COLS
        (b.board.set (pos.2 + COLS * pos.1) (Spot.Occupied b.player.toPiece))
        b.player (pos.2 + COLS * pos.1) = some true →
      turn COLS b pos = some (.ok (.Win b.player),
        ⟨b.board.set (pos.2 + COLS * pos.1) (Spot.Occupied b.player.toPiece),
         b.player⟩)) ∧
    (check_win COLS
        (b.board.set (pos.2 + COLS * pos.1) (Spot.Occupied b.player.toPiece))
        b.player (pos.2 + COLS * pos.1) = some false →
      check_draw
        (b.board.set (pos.2 + COLS * pos.1) (Spot.Occupied b.player.toPiece)) =
          true →
      turn COLS b pos = some (.ok .Draw,
        ⟨b.board.set (pos.2 + COLS * pos.1) (Spot.Occupied b.player.toPiece),
         b.player⟩)) ∧
    (check_win COLS
        (b.board.set (pos.2 + COLS * pos.1) (Spot.Occupied b.player.toPiece))
        b.player (pos.2 + COLS * pos.1) = some false →
      check_draw
        (b.board.set (pos.2 + COLS * pos.1) (Spot.Occupied b.player.toPiece)) =
          false →
      turn COLS b pos = some (.ok .Next,
        toggle_player
          ⟨b.board.set (pos.2 + COLS * pos.1) (Spot.Occupied b.player.toPiece),
           b.player⟩)) := by
  have hsp : set_piece COLS b pos =
      some (.ok (pos.2 + COLS * pos.1),
        ⟨b.board.set (pos.2 + COLS * pos.1) (Spot.Occupied b.player.toPiece),
         b.player⟩) := by
    unfold set_piece
    rw [convert_eq COLS b.board pos hC]
    rw [List.get?_eq_getElem?] at hE
    simp [Nat.not_le.mpr hr, Nat.not_le.mpr hc, hE]
  refine ⟨hsp, fun hw => ?_, fun hw hd => ?_, fun hw hd => ?_⟩ <;>
    unfold turn <;> rw [hsp] <;> simp only [] <;> rw [hw] <;>
    simp [hd]

/-- Witness for `c6_success_flow`: the first move of a game, which wins no
line and fills no board, toggles the player and returns Next. -/
theorem c6_success_flow_witness :
    turn 3 init9 (1, 1) = some (.ok .Next,
      toggle_player
        ⟨init9.board.set (1 + 3 * 1) (Spot.Occupied init9.player.toPiece),
         init9.player⟩) :=
  (c6_success_flow 3 init9 (1, 1) (by decide) (by decide) (by decide)
    (by decide)).2.2.2 (by decide) (by decide)

/-- Claim C3, counterexample: after the winning sequence ending in Win(X),
a further `turn` call on the same board still succeeds, mutates the board,
and reports Next: the board engine does not make Won a terminal state. -/
theorem c3_win_not_terminal :
    playSeq 3 init9 [(0, 0), (1, 0), (0, 1), (1, 1), (0, 2)] =
      some ([.ok .Next, .ok .Next, .ok .Next, .ok .Next, .ok (.Win .X)],
        wonBoard) ∧
    turn 3 wonBoard (2, 0) = some (.ok .Next, afterWonBoard) ∧
    ¬afterWonBoard = wonBoard := by
  decide

/-- Claim C3, amended: Draw is terminal at the board level (after a turn
returns Draw the board is full, so every further turn on that board fails
and leaves the state unchanged); a board on which turn returned Win is not
protected by the engine, and termination after Win is enforced only by the
caller loop that stops calling `turn`. -/
theorem c3_draw_terminal (COLS : Nat) (b b1 : GameBoard) (pos : Pos)
    (h : turn COLS b pos = some (.ok .Draw, b1)) :
    ∀ q : Pos, ∃ e, turn COLS b1 q = some (.error e, b1) := by
  unfold turn at h
  split at h
  · simp at h
  · simp at h
  · rename_i idx bsp hsp
    split at h
    · simp at h
    · simp at h
    · split at h
      · rename_i hcw hdraw
        simp only [Option.some.injEq, Prod.mk.injEq] at h
        obtain ⟨-, hb1⟩ := h
        subst hb1
        obtain ⟨hcv, hE, hbsp⟩ := set_piece_ok_inv COLS b pos idx bsp hsp
        have hC : COLS ≠ 0 := (convert_ok_inv COLS b.board pos idx hcv).1
        intro q
        have hcv2 := convert_eq COLS bsp.board q hC
        by_cases h1 : q.1 ≥ bsp.board.length / COLS
        · by_cases h2 : q.2 ≥ COLS
          · exact ⟨.OutOfBounds .Both, turn_of_convert_error COLS bsp q .Both
              (by rw [hcv2]; simp [h1, h2])⟩
          · exact ⟨.OutOfBounds .Row, turn_of_convert_error COLS bsp q .Row
              (by rw [hcv2]; simp [h1, Nat.not_le.mpr (Nat.lt_of_not_le h2)])⟩
        · by_cases h2 : q.2 ≥ COLS
          · exact ⟨.OutOfBounds .Col, turn_of_convert_error COLS bsp q .Col
              (by rw [hcv2]; simp [Nat.not_le.mpr (Nat.lt_of_not_le h1), h2])⟩
          · have hlt : q.2 + COLS * q.1 < bsp.board.length :=
              idx_lt_len COLS bsp.board.length q.1 q.2 hC
                (Nat.lt_of_not_le h1) (Nat.lt_of_not_le h2)
            have hget : bsp.board.get? (q.2 + COLS * q.1) =
                some (bsp.board.get ⟨q.2 + COLS * q.1, hlt⟩) :=
              List.get?_eq_get hlt
            have hmem : bsp.board.get ⟨q.2 + COLS * q.1, hlt⟩ ∈ bsp.board :=
              List.get_mem _ _ _
            have hne : ¬Spot.Empty = bsp.board.get ⟨q.2 + COLS * q.1, hlt⟩ := by
              have := List.all_eq_true.mp hdraw _ hmem
              exact of_decide_eq_true this
            cases hs : bsp.board.get ⟨q.2 + COLS * q.1, hlt⟩ with
            | Empty => exact absurd hs.symm hne
            | Occupied piece =>
              refine ⟨.Occupied, ?_⟩
              have hspq : set_piece COLS bsp q = some (.error .Occupied, bsp) := by
                unfold set_piece
                rw [hcv2]
                simp only [Nat.not_le.mpr (Nat.lt_of_not_le h1),
                  Nat.not_le.mpr (Nat.lt_of_not_le h2)]
                rw [hs] at hget
                rw [List.get?_eq_getElem?] at hget
                simp [hget]
              unfold turn
              rw [hspq]
      · simp at h

/-- Witness for `c3_draw_terminal`: the drawing move on `preDrawBoard`
yields `drawnBoard`, on which a further turn at (0,0) fails. -/
theorem c3_draw_terminal_witness :
    ∃ e, turn 3 drawnBoard (0, 0) = some (.error e, drawnBoard) :=
  c3_draw_terminal 3 preDrawBoard drawnBoard (2, 1) (by decide) (0, 0)

theorem streak_from_isSome (player : Player) (f : Nat → Option Bool)
    (hf : ∀ n, (f n).isSome = true) :
    ∀ (l : List Spot) (k : Nat), (streak_from player f k l).isSome = true := by
  intro l
  induction l with
  | nil => intro k; rfl
  | cons s rest ih =>
    intro k
    unfold streak_from
    obtain ⟨v, hv⟩ := Option.isSome_iff_exists.mp (hf k)
    rw [hv]
    obtain ⟨r, hr⟩ := Option.isSome_iff_exists.mp (ih (k + 1))
    rw [hr]
    rfl

theorem streak_line_isSome (board : List Spot) (player : Player)
    (f : Nat → Option Bool) (hf : ∀ n, (f n).isSome = true) :
    (streak_line board player f).isSome = true :=
  streak_from_isSome player f hf board 0

theorem in_secondary_isSome (COLS : Nat) (h2 : COLS - 1 ≠ 0) (idx : Nat) :
    (in_secondary COLS idx).isSome = true := by
  unfold in_secondary
  rw [if_neg h2]
  rfl

theorem in_center_isSome (COLS : Nat) (h2 : COLS - 1 ≠ 0) (idx : Nat) :
    (in_center COLS idx).isSome = true := by
  unfold in_center
  by_cases hp : in_primary COLS idx
  · rw [if_pos hp]; exact in_secondary_isSome COLS h2 idx
  · rw [if_neg hp]; rfl

theorem check_diagonal_isSome (COLS : Nat) (board : List Spot)
    (player : Player) (h2 : COLS - 1 ≠ 0) (d : Diagonal) :
    (check_diagonal COLS board player d).isSome = true := by
  have hstp := streak_line_isSome board player
    (fun n => some (in_primary COLS n)) (fun n => rfl)
  have hsts := streak_line_isSome board player (in_secondary COLS)
    (fun n => in_secondary_isSome COLS h2 n)
  cases d with
  | Primary => exact hstp
  | Secondary => exact hsts
  | Both =>
    unfold check_diagonal
    obtain ⟨v, hv⟩ := Option.isSome_iff_exists.mp hstp
    rw [hv]
    cases v
    · exact hsts
    · rfl

theorem check_diagonals_isSome (COLS : Nat) (board : List Spot)
    (player : Player) (idx : Nat) (h2 : COLS - 1 ≠ 0) :
    (check_diagonals COLS board player idx).isSome = true := by
  unfold check_diagonals
  by_cases hsq : is_squared board.length COLS
  · rw [hsq]
    simp only [Bool.not_true, Bool.false_eq_true, if_false]
    obtain ⟨v, hv⟩ := Option.isSome_iff_exists.mp (in_center_isSome COLS h2 idx)
    rw [hv]
    cases v
    · by_cases hp : in_primary COLS idx
      · rw [if_pos hp]
        exact check_diagonal_isSome COLS board player h2 .Primary
      · rw [if_neg hp]
        obtain ⟨w, hw⟩ :=
          Option.isSome_iff_exists.mp (in_secondary_isSome COLS h2 idx)
        rw [hw]
        cases w
        · rfl
        · exact check_diagonal_isSome COLS board player h2 .Secondary
    · exact check_diagonal_isSome COLS board player h2 .Both
  · rw [Bool.eq_false_iff.mpr hsq]
    rfl

theorem horizontal_div (COLS r c : Nat) (hC : COLS ≠ 0) (hc : c < COLS) :
    (c + COLS * r) / COLS = r := by
  rw [Nat.mul_comm COLS r,
    Nat.add_mul_div_right c r (Nat.pos_of_ne_zero hC),
    Nat.div_eq_of_lt hc]
  omega

theorem check_horizontal_isSome (COLS : Nat) (board : List Spot)
    (player : Player) (r c : Nat) (hC : COLS ≠ 0)
    (hr : r < board.length / COLS) (hc : c < COLS) :
    (check_horizontal COLS board player (c + COLS * r)).isSome = true := by
  unfold check_horizontal
  rw [if_neg hC]
  have hle : (c + COLS * r) / COLS * COLS + COLS ≤ board.length := by
    rw [horizontal_div COLS r c hC hc]
    have h1 : (r + 1) * COLS ≤ board.length / COLS * COLS :=
      Nat.mul_le_mul_right COLS (by omega)
    have h2 : board.length / COLS * COLS ≤ board.length :=
      Nat.div_mul_le_self _ _
    rw [Nat.succ_mul] at h1
    omega
  rw [if_pos hle]
  rfl

theorem check_vertical_isSome (COLS : Nat) (board : List Spot)
    (player : Player) (idx : Nat) (hC : COLS ≠ 0) :
    (check_vertical COLS board player idx).isSome = true := by
  unfold check_vertical
  exact streak_line_isSome board player _ (fun n => by rw [if_neg hC]; rfl)

theorem check_win_isSome (COLS : Nat) (board : List Spot) (player : Player)
    (r c : Nat) (hC : COLS ≠ 0) (hr : r < board.length / COLS) (hc : c < COLS)
    (hocc : board.get? (c + COLS * r) = some (Spot.Occupied player.toPiece)) :
    (check_win COLS board player (c + COLS * r)).isSome = true := by
  unfold check_win
  obtain ⟨v, hv⟩ := Option.isSome_iff_exists.mp
    (check_horizontal_isSome COLS board player r c hC hr hc)
  rw [hv]
  cases v with
  | true => rfl
  | false =>
    obtain ⟨w, hw⟩ := Option.isSome_iff_exists.mp
      (check_vertical_isSome COLS board player (c + COLS * r) hC)
    rw [hw]
    cases w with
    | true => rfl
    | false =>
      by_cases h2 : COLS - 1 = 0
      · have hC1 : COLS = 1 := by omega
        subst hC1
        by_cases hsq : is_squared board.length 1
        · exfalso
          have hlen1 : board.length = 1 := by
            unfold is_squared at hsq
            have := of_decide_eq_true hsq
            omega
          have hr0 : r = 0 := by rw [hlen1] at hr; omega
          have hc0 : c = 0 := by omega
          subst hr0 hc0
          have hboard : board = [Spot.Occupied player.toPiece] := by
            cases board with
            | nil => simp at hlen1
            | cons s rest =>
              cases rest with
              | nil =>
                simp only [List.get?] at hocc
                injection hocc with h
                rw [h]
              | cons t rest2 => simp at hlen1
          rw [hboard] at hv
          simp [check_horizontal] at hv
        · unfold check_diagonals
          rw [Bool.eq_false_iff.mpr hsq]
          rfl
      · exact check_diagonals_isSome COLS board player (c + COLS * r) h2

/-- Claim C9: on any board that passed construction (COLS and LEN nonzero),
an in-bounds position converts to a linear index strictly below LEN, and
`turn` never reaches a panic point (array lookup, slicing, division or
remainder by zero), modelled as `turn` always returning `some`. -/
theorem c9_turn_total (LEN COLS : Nat) (b : GameBoard) (pos : Pos)
    (hcon : constraints LEN COLS = .ok ()) (hlen : b.board.length = LEN) :
    (∀ idx, convert_to_linear COLS b.board pos = some (.ok idx) → idx < LEN) ∧
    (turn COLS b pos).isSome = true := by
  have hC : COLS ≠ 0 := by
    unfold constraints at hcon
    by_cases h : COLS = 0
    · rw [if_pos h] at hcon; simp at hcon
    · exact h
  constructor
  · intro idx hcv
    obtain ⟨-, hidx, hrr, hcc⟩ := convert_ok_inv COLS b.board pos idx hcv
    rw [hlen] at hrr
    exact hidx ▸ idx_lt_len COLS LEN pos.1 pos.2 hC hrr hcc
  · unfold turn
    cases hsp : set_piece COLS b pos with
    | none =>
      exfalso
      unfold set_piece at hsp
      rw [convert_eq COLS b.board pos hC] at hsp
      by_cases h1 : pos.1 ≥ b.board.length / COLS
      · by_cases h2 : pos.2 ≥ COLS <;> simp [h1, h2] at hsp
      · by_cases h2 : pos.2 ≥ COLS
        · simp [h1, h2] at hsp
        · have hlt : pos.2 + COLS * pos.1 < b.board.length :=
            idx_lt_len COLS b.board.length pos.1 pos.2 hC
              (Nat.lt_of_not_le h1) (Nat.lt_of_not_le h2)
          have hget := List.get?_eq_get hlt
          cases hval : b.board.get ⟨pos.2 + COLS * pos.1, hlt⟩ <;>
            rw [hval] at hget <;>
            rw [List.get?_eq_getElem?] at hget <;>
            simp [h1, h2, hget] at hsp
    | some r =>
      obtain ⟨res, b1⟩ := r
      cases res with
      | error e => rfl
      | ok idx =>
        obtain ⟨hcv, hE, hb1⟩ := set_piece_ok_inv COLS b pos idx b1 hsp
        obtain ⟨-, hidx, hrr, hcc⟩ := convert_ok_inv COLS b.board pos idx hcv
        subst hb1
        subst hidx
        have hlt : pos.2 + COLS * pos.1 < b.board.length :=
          idx_lt_len COLS b.board.length pos.1 pos.2 hC hrr hcc
        have hocc :
            (b.board.set (pos.2 + COLS * pos.1)
                (Spot.Occupied b.player.toPiece)).get?
              (pos.2 + COLS * pos.1) =
              some (Spot.Occupied b.player.toPiece) :=
          List.get?_set_eq_of_lt _ hlt
        have hw := check_win_isSome COLS
          (b.board.set (pos.2 + COLS * pos.1) (Spot.Occupied b.player.toPiece))
          b.player pos.1 pos.2 hC
          (by rw [List.length_set]; exact hrr) hcc hocc
        obtain ⟨v, hv⟩ := Option.isSome_iff_exists.mp hw
        simp only []
        rw [hv]
        cases v with
        | true => rfl
        | false =>
          by_cases hd : check_draw
              (b.board.set (pos.2 + COLS * pos.1)
                (Spot.Occupied b.player.toPiece)) = true
          · rw [if_pos hd]
            rfl
          · rw [if_neg hd]
            rfl

/-- Witness for `c9_turn_total` on the 3x3 board at an in-bounds position. -/
theorem c9_turn_total_witness :
    (turn 3 init9 (1, 2)).isSome = true :=
  (c9_turn_total 9 3 init9 (1, 2) (by decide) (by decide)).2

theorem countPiece_set (board : List Spot) (idx : Nat) (p q : Piece)
    (h : board.get? idx = some Spot.Empty) :
    countPiece q (board.set idx (Spot.Occupied p)) =
      countPiece q board + if q = p then 1 else 0 := by
  induction board generalizing idx with
  | nil => simp at h
  | cons s rest ih =>
    cases idx with
    | zero =>
      have hs : s = Spot.Empty := by
        simp only [List.get?] at h
        injection h
      subst hs
      unfold countPiece
      simp only [List.set, List.countP_cons]
      by_cases hqp : q = p
      · subst hqp
        simp
      · have hpq : ¬p = q := fun hh => hqp hh.symm
        simp [hqp, hpq]
    | succ n =>
      have h2 : rest.get? n = some Spot.Empty := by
        simpa only [List.get?] using h
      unfold countPiece at ih ⊢
      simp only [List.set, List.countP_cons, ih n h2]
      omega

theorem countPiece_replicate (n : Nat) (q : Piece) :
    countPiece q (List.replicate n Spot.Empty) = 0 := by
  unfold countPiece
  rw [List.countP_eq_zero]
  intro a ha
  rw [List.eq_of_mem_replicate ha]
  simp

theorem turn_next_inv (COLS : Nat) (b b1 : GameBoard) (pos : Pos)
    (h : turn COLS b pos = some (.ok .Next, b1))
    (hInv :
      (b.player = .X → countPiece .X b.board = countPiece .O b.board) ∧
      (b.player = .O → countPiece .X b.board = countPiece .O b.board + 1)) :
    (b1.player = .X → countPiece .X b1.board = countPiece .O b1.board) ∧
    (b1.player = .O → countPiece .X b1.board = countPiece .O b1.board + 1) := by
  unfold turn at h
  split at h
  · simp at h
  · simp at h
  · rename_i idx bsp hsp
    split at h
    · simp at h
    · simp at h
    · split at h
      · simp at h
      · simp only [Option.some.injEq, Prod.mk.injEq] at h
        obtain ⟨-, hb1⟩ := h
        obtain ⟨hcv, hE, hbsp⟩ := set_piece_ok_inv COLS b pos idx bsp hsp
        subst hbsp
        cases hpl : b.player with
        | X =>
          have hX := hInv.1 hpl
          rw [hpl] at hb1
          simp only [toggle_player] at hb1
          subst hb1
          constructor
          · intro hco
            simp at hco
          · intro _
            simp only [Player.toPiece]
            rw [countPiece_set b.board idx Piece.X Piece.X hE,
              countPiece_set b.board idx Piece.X Piece.O hE]
            simp [hX]
        | O =>
          have hO := hInv.2 hpl
          rw [hpl] at hb1
          simp only [toggle_player] at hb1
          subst hb1
          constructor
          · intro _
            simp only [Player.toPiece]
            rw [countPiece_set b.board idx Piece.O Piece.X hE,
              countPiece_set b.board idx Piece.O Piece.O hE]
            simp
            omega
          · intro hco
            simp at hco

theorem reachableNext_preserves (COLS : Nat) (a c : GameBoard)
    (h : ReachableNext COLS a c) :
    ((a.player = .X → countPiece .X a.board = countPiece .O a.board) ∧
     (a.player = .O → countPiece .X a.board = countPiece .O a.board + 1)) →
    ((c.player = .X → countPiece .X c.board = countPiece .O c.board) ∧
     (c.player = .O → countPiece .X c.board = countPiece .O c.board + 1)) := by
  induction h with
  | refl b => exact fun hInv => hInv
  | step pos ht hr ih =>
    exact fun hInv => ih (turn_next_inv _ _ _ _ ht hInv)

theorem reachableOk_of_playSeq (COLS : Nat) :
    ∀ (moves : List Pos) (b : GameBoard)
      (rs : List (Except BoardError Turn)) (bf : GameBoard),
      playSeq COLS b moves = some (rs, bf) →
      (∀ r ∈ rs, r.isOk = true) → ReachableOk COLS b bf := by
  intro moves
  induction moves with
  | nil =>
    intro b rs bf h hok
    unfold playSeq at h
    simp only [Option.some.injEq, Prod.mk.injEq] at h
    rw [← h.2]
    exact ReachableOk.refl b
  | cons p ps ih =>
    intro b rs bf h hok
    unfold playSeq at h
    split at h
    · simp at h
    · rename_i r b1 ht
      split at h
      · simp at h
      · rename_i rs2 bf2 hps
        simp only [Option.some.injEq, Prod.mk.injEq] at h
        obtain ⟨hrs, hbf⟩ := h
        subst hbf
        cases r with
        | error e =>
          have : Except.error (α := Turn) e ∈ rs := by rw [← hrs]; simp
          have := hok _ this
          simp [Except.isOk, Except.toBool] at this
        | ok t =>
          refine ReachableOk.step p t ht (ih b1 rs2 bf2 hps ?_)
          intro r2 hr2
          exact hok r2 (by rw [← hrs]; simp [hr2])

/-- Claim C10, counterexample: the board reached by the five successful turn
calls of a winning game has current player X but three X pieces against two
O pieces, violating the claimed alternation invariant for states reachable
by successful `turn` calls (the player is not toggled on a Win). -/
theorem c10_invariant_fails_after_win :
    GameBoard.new 9 3 = .ok init9 ∧
    ReachableOk 3 init9 wonBoard ∧
    wonBoard.player = Player.X ∧
    ¬countPiece Piece.X wonBoard.board = countPiece Piece.O wonBoard.board := by
  refine ⟨by decide, ?_, by decide, by decide⟩
  exact reachableOk_of_playSeq 3 [(0, 0), (1, 0), (0, 1), (1, 1), (0, 2)] init9
    [.ok .Next, .ok .Next, .ok .Next, .ok .Next, .ok (.Win .X)] wonBoard
    (by decide) (by decide)

/-- Claim C10, amended: a newly constructed board is all Empty with player X,
and the alternation invariant (equal counts when X is to move, X one ahead
when O is to move) holds for every state reachable by turn calls that
return Next; it can fail on boards reached by a Win or Draw result, where
the player is not toggled. -/
theorem c10_alternation (LEN COLS : Nat) (b0 : GameBoard)
    (h0 : GameBoard.new LEN COLS = .ok b0) :
    (∀ s ∈ b0.board, s = Spot.Empty) ∧ b0.player = Player.X ∧
    ∀ b, ReachableNext COLS b0 b →
      (b.player = Player.X →
        countPiece Piece.X b.board = countPiece Piece.O b.board) ∧
      (b.player = Player.O →
        countPiece Piece.X b.board = countPiece Piece.O b.board + 1) := by
  unfold GameBoard.new at h0
  split at h0
  · simp at h0
  · simp only [Except.ok.injEq] at h0
    subst h0
    refine ⟨fun s hs => List.eq_of_mem_replicate hs, rfl, fun b hreach => ?_⟩
    refine reachableNext_preserves COLS _ b hreach ⟨fun _ => ?_, fun hco => ?_⟩
    · simp [countPiece_replicate]
    · simp at hco

/-- Witness for `c10_alternation`: the invariant instantiated at the fresh
3x3 board itself. -/
theorem c10_alternation_witness :
    countPiece Piece.X init9.board = countPiece Piece.O init9.board :=
  ((c10_alternation 9 3 init9 (by decide)).2.2 init9
      (ReachableNext.refl init9)).1
    (c10_alternation 9 3 init9 (by decide)).2.1

end TicTacToe
